import Mathlib

/-
  Verification of the astropy fast ASCII tokenizer core
  (src/astropy/io/ascii/src/tokenizer.c) against its specification.

  Bytes are modelled as natural numbers (the C code only ever compares
  bytes and stores them, so no modular arithmetic is needed).  The packed
  per-column output buffers are modelled as the list of bytes written so
  far: dynamic growth (resize_col) and the zero-filled tail of the
  allocation are transparent at this level, because the claims under
  verification concern the written region and the counts of terminator
  bytes in it.
-/

set_option maxHeartbeats 1000000
set_option maxRecDepth 4000

abbrev Byte := Nat

/-- Modelled from the spec: the error codes declared in tokenizer.h, which is
not under src (section 7 of the spec lists NO_ERROR, INVALID_LINE,
TOO_MANY_COLS, NOT_ENOUGH_COLS, CONVERSION_ERROR, OVERFLOW_ERROR). -/
inductive Code where
  | noError
  | invalidLine
  | tooManyCols
  | notEnoughCols
  | conversionError
  | overflowError
deriving DecidableEq, Repr

/-- Modelled from the spec: the tokenizer state enumeration declared in
tokenizer.h, which is not under src (section 4.4 of the spec lists the
eight states). -/
inductive PState where
  | startLine
  | startField
  | field
  | startQuotedField
  | quotedField
  | quotedFieldNewline
  | comment
  | carriageReturn
deriving DecidableEq, Repr

/- ------------------------------------------------------------------ -/
/- skip_lines (tokenizer.c lines 175-224)                              -/
/- ------------------------------------------------------------------ -/

/-- Loop state of one iteration of the skip_lines while loop. -/
structure SkipSt where
  pos : Nat
  signif : Nat
  com : Bool
  counted : Bool
deriving DecidableEq, Repr

/-- One iteration of the skip_lines loop body (tokenizer.c lines 192-220),
executed when pos is inside the source.  Returns the next cursor, the
updated significant-character count and comment flag, and whether this
iteration counted a completed significant line. -/
def skipStep (src : List Byte) (stripL header : Bool) (comm : Byte)
    (pos signif : Nat) (com : Bool) : SkipSt :=
  let c := src.getD pos 0
  if c = 13 ∨ c = 10 then
    let pos1 := if c = 13 ∧ pos + 1 < src.length ∧ src.getD (pos + 1) 0 = 10
      then pos + 1 else pos
    ⟨pos1 + 1, 0, false, decide (com = false ∧ 0 < signif)⟩
  else if (c ≠ 32 ∧ c ≠ 9) ∨ stripL = false ∨ header = true then
    ⟨pos + 1, signif + 1,
      (if signif = 0 ∧ comm ≠ 0 ∧ c = comm then true else com), false⟩
  else
    ⟨pos + 1, signif, com, false⟩

/-- Fuel-indexed skip_lines loop.  The loop advances pos by at least one per
iteration, so fuel src.length + 1 always suffices; running out of fuel
returns the end-of-input result, which is what the loop would produce. -/
def skipAux (src : List Byte) (stripL header : Bool) (comm : Byte) (offset : Int) :
    Nat → Nat → Nat → Bool → Int → Code × Nat
  | 0, pos, _, _, _ => (if header then Code.invalidLine else Code.noError, pos)
  | fuel + 1, pos, signif, com, i =>
    if offset ≤ i then (Code.noError, pos)
    else if src.length ≤ pos then
      (if header then Code.invalidLine else Code.noError, pos)
    else
      let st := skipStep src stripL header comm pos signif com
      skipAux src stripL header comm offset fuel st.pos st.signif st.com
        (i + (if st.counted then 1 else 0))

/-- skip_lines (tokenizer.c lines 175-224): advance the cursor past offset
significant lines; returns the error code and the new cursor. -/
def skip_lines (src : List Byte) (pos : Nat) (offset : Int)
    (header stripL : Bool) (comm : Byte) : Code × Nat :=
  skipAux src stripL header comm offset (src.length + 1) pos 0 false 0

/-- Number of significant lines the skip_lines loop would still count before
reaching the end of the input, starting from the given loop state. -/
def countAux (src : List Byte) (stripL header : Bool) (comm : Byte) :
    Nat → Nat → Nat → Bool → Nat
  | 0, _, _, _ => 0
  | fuel + 1, pos, signif, com =>
    if src.length ≤ pos then 0
    else
      let st := skipStep src stripL header comm pos signif com
      (if st.counted then 1 else 0) + countAux src stripL header comm fuel st.pos st.signif st.com

/-- Number of significant lines available in the input from position pos,
counted exactly the way the skip_lines loop counts them. -/
def countAvail (src : List Byte) (pos : Nat) (header stripL : Bool) (comm : Byte) : Nat :=
  countAux src stripL header comm (src.length + 1) pos 0 false

/- ------------------------------------------------------------------ -/
/- Field iterator: next_field (tokenizer.c lines 740-763)              -/
/- ------------------------------------------------------------------ -/

/-- The pointer returned by next_field: either the shared persistent empty
string buffer (tokenizer->buf, allocated once in create_tokenizer) or a
pointer into the column buffer at the given offset. -/
inductive FieldPtr where
  | sharedEmpty
  | inBuf (offset : Nat)
deriving DecidableEq, Repr

/-- Result of next_field: the returned pointer, the reported size, and the
iteration cursor after the call. -/
structure FieldRes where
  ptr : FieldPtr
  size : Nat
  next_pos : Nat
deriving DecidableEq, Repr

/-- next_field (tokenizer.c lines 740-763): scan from the cursor to the next
0x00 terminator; if the first byte of the field is 0x01 report the shared
empty buffer with length 0, otherwise report the field span.  Positions past
the written region read as 0 (the allocation is zero-filled). -/
def next_field (buf : List Byte) (pos : Nat) : FieldRes :=
  let span := (buf.drop pos).takeWhile (fun b => decide (b ≠ 0))
  let np := pos + span.length + 1
  if buf.getD pos 0 = 1 then ⟨FieldPtr.sharedEmpty, 0, np⟩
  else ⟨FieldPtr.inBuf pos, span.length, np⟩

/- ------------------------------------------------------------------ -/
/- Numeric conversion: xstrtod and str_to_double                       -/
/- (tokenizer.c lines 519-545 and 592-721)                             -/
/- ------------------------------------------------------------------ -/

/-- C isspace on ASCII bytes. -/
def isspace (b : Byte) : Bool := decide (b = 32 ∨ (9 ≤ b ∧ b ≤ 13))

/-- C isdigit on ASCII bytes. -/
def isdigit (b : Byte) : Bool := decide (48 ≤ b ∧ b ≤ 57)

/-- C toupper on ASCII bytes. -/
def c_toupper (b : Byte) : Byte := if 97 ≤ b ∧ b ≤ 122 then b - 32 else b

/-- The integer-digit loop of xstrtod (tokenizer.c lines 623-630): accumulate
digits into the running value and, after each digit, skip one byte when it
equals the configured thousands separator.  Returns the value, the digit
count and the remaining input.  Double arithmetic is modelled exactly over
the rationals.  The loop consumes at least one byte per iteration, so the
explicit fuel (called with the length of the remaining input) never runs
out before the loop exits. -/
def xdigits (tsep : Byte) : Nat → List Byte → ℚ → Nat → ℚ × Nat × List Byte
  | 0, p, number, nd => (number, nd, p)
  | _ + 1, [], number, nd => (number, nd, [])
  | fuel + 1, b :: rest, number, nd =>
    if isdigit b then
      let number := number * 10 + ((b - 48 : Nat) : ℚ)
      let rest' := if tsep ≠ 0 ∧ rest.headD 0 = tsep then rest.tail else rest
      xdigits tsep fuel rest' number (nd + 1)
    else (number, nd, b :: rest)

/-- The fractional-digit loop of xstrtod (tokenizer.c lines 637-643). -/
def xfrac : List Byte → ℚ → Nat → Nat → ℚ × Nat × Nat × List Byte
  | [], number, nd, ndec => (number, nd, ndec, [])
  | b :: rest, number, nd, ndec =>
    if isdigit b then
      xfrac rest (number * 10 + ((b - 48 : Nat) : ℚ)) (nd + 1) (ndec + 1)
    else (number, nd, ndec, b :: rest)

/-- The exponent-digit loop of xstrtod (tokenizer.c lines 669-674). -/
def xexp : List Byte → Nat → Nat × List Byte
  | [], n => (n, [])
  | b :: rest, n =>
    if isdigit b then xexp rest (n * 10 + (b - 48)) else (n, b :: rest)

/-- The scaling loop of xstrtod (tokenizer.c lines 691-705): multiply or
divide the mantissa by 10 to the exponent using squaring, exactly as the C
loop does (the rational model performs each step exactly).  The loop halves
n each iteration, so fuel n (the initial exponent magnitude) suffices. -/
def xscale (negExp : Bool) : Nat → ℚ → ℚ → Nat → ℚ
  | 0, number, _, _ => number
  | fuel + 1, number, p10, n =>
    if n = 0 then number
    else
      let number := if n % 2 = 1 then (if negExp then number / p10 else number * p10) else number
      xscale negExp fuel number (p10 * p10) (n / 2)

/-- Result of xstrtod: the value, the rest of the input corresponding to the
end pointer, and whether errno was set to ERANGE.  Double arithmetic is
modelled exactly over the rationals; on inputs whose every intermediate
value is exactly representable in binary64 (integers below 2 to the 53 and
exact decimal scalings), this coincides with the C double computation. -/
structure XRes where
  val : ℚ
  rest : List Byte
  erange : Bool
deriving DecidableEq, Repr

/-- xstrtod (tokenizer.c lines 592-721).  The HUGE_VAL overflow comparison at
line 708 has no exact-rational counterpart and cannot fire on inputs whose
scaling is exact; the two early-ERANGE returns (no digits, exponent out of
the binary64 exponent range) are modelled by the erange flag.  The no-digit
early return leaves the C end pointer unset; the model returns the current
rest there. -/
def xstrtod (str : List Byte) (decimal sci tsep : Byte) (skip_trailing : Bool) : XRes :=
  let p := str.dropWhile isspace
  let negative := p.headD 0 = 45
  let p := if p.headD 0 = 45 ∨ p.headD 0 = 43 then p.tail else p
  let d1 := xdigits tsep p.length p 0 0
  let number := d1.1
  let frac :=
    if d1.2.2.headD 0 = decimal then xfrac d1.2.2.tail number d1.2.1 0
    else (number, d1.2.1, 0, d1.2.2)
  let number := frac.1
  let num_digits := frac.2.1
  let num_decimals := frac.2.2.1
  let p := frac.2.2.2
  if num_digits = 0 then ⟨0, p, true⟩
  else
    let number := if negative then -number else number
    let ep :=
      if c_toupper (p.headD 0) = c_toupper sci then
        let p := p.tail
        let eneg := p.headD 0 = 45
        let p := if p.headD 0 = 45 ∨ p.headD 0 = 43 then p.tail else p
        let e1 := xexp p 0
        ((if eneg then -(e1.1 : Int) else (e1.1 : Int)), e1.2)
      else ((0 : Int), p)
    let exponent : Int := ep.1 - (num_decimals : Int)
    let p := ep.2
    if exponent < -1021 ∨ 1024 < exponent then ⟨0, p, true⟩
    else
      let number := xscale (decide (exponent < 0)) exponent.natAbs number 10 exponent.natAbs
      let p := if skip_trailing then p.dropWhile isspace else p
      ⟨number, p, false⟩

/-- str_to_double (tokenizer.c lines 519-545), fast-converter branch only:
the use_fast_converter = false branch defers to the platform strtod, which
is an external collaborator and is not modelled.  The prior error code is
passed in and returned unchanged when no error occurs. -/
def str_to_double (code : Code) (str : List Byte) : ℚ × Code :=
  let r := xstrtod str 46 69 44 true
  let code' :=
    if r.rest ≠ [] then Code.conversionError
    else if r.erange then Code.overflowError
    else code
  (r.val, code')

/- ------------------------------------------------------------------ -/
/- The tokenizer state machine (tokenizer.c lines 226-503)             -/
/- ------------------------------------------------------------------ -/

/-- The configuration bytes and flags of tokenizer_t that the tokenize loop
reads.  fill_extra_cols is passed separately to the functions below so that
the claims comparing the two settings can be stated by varying one
argument; it is the same struct field in the C code. -/
structure TokConfig where
  delimiter : Byte
  comment : Byte
  quotechar : Byte
  strip_whitespace_lines : Bool
  strip_whitespace_fields : Bool
deriving DecidableEq, Repr

/-- The mutable state of the tokenize loop: the cursor, the machine state,
the saved pre-CR state, the explicit treat-as-newline flag, the current
column, the all-whitespace-so-far flag, the row count, and the written
region of every column buffer (cols i is the byte list written to column i
so far; writes past num_cols, which in C land out of bounds, land in
otherwise unused entries of this total map). -/
structure TState where
  source_pos : Nat
  state : PState
  old_state : PState
  parse_newline : Bool
  col : Nat
  whitespace : Bool
  num_rows : Nat
  cols : Nat → List Byte

/-- PUSH(c) (tokenizer.c lines 92-98): append one byte to the written region
of the current column; buffer doubling is transparent at this level. -/
def pushByte (cols : Nat → List Byte) (col : Nat) (c : Byte) : Nat → List Byte :=
  fun j => if j = col then cols j ++ [c] else cols j

/-- A space or tab, the whitespace stripped by END_FIELD. -/
def isFieldWS (b : Byte) : Bool := decide (b = 32 ∨ b = 9)

/-- The backtracking loop of END_FIELD (tokenizer.c lines 118-126): remove
trailing spaces and tabs from the written region.  The C loop overwrites
them with 0x00 beyond the write pointer and stops at the previous 0x00
terminator (terminators are not whitespace, so dropping trailing whitespace
from the written list is the same operation); when the column is empty it
reads one byte before the buffer, which here stops the loop. -/
def stripTrailing (l : List Byte) : List Byte :=
  (l.reverse.dropWhile isFieldWS).reverse

/-- END_FIELD() (tokenizer.c lines 117-134): strip trailing whitespace if
configured, push the 0x01 empty-field sentinel when the field is empty
(write pointer at buffer start or just after a terminator), push the 0x00
terminator, and advance col unless tokenizing the header. -/
def end_field (stripF header : Bool) (cols : Nat → List Byte) (col : Nat) :
    (Nat → List Byte) × Nat :=
  let l := cols col
  let l1 := if stripF then stripTrailing l else l
  let l2 := if l1 = [] ∨ l1.getLast? = some 0 then l1 ++ [1] else l1
  (fun j => if j = col then l2 ++ [0] else cols j, if header then col else col + 1)

/-- The fill_extra_cols loop of END_LINE (tokenizer.c lines 150-155): while
col < num_cols, push the 0x01 sentinel and end the field.  col rises by one
per iteration, so the explicit fuel (called with nc - col) never runs out
before the loop guard fails. -/
def fill_cols (stripF : Bool) (nc : Nat) : Nat → (Nat → List Byte) → Nat → (Nat → List Byte) × Nat
  | 0, cols, col => (cols, col)
  | fuel + 1, cols, col =>
    if col < nc then
      fill_cols stripF nc fuel (end_field stripF false (pushByte cols col 1) col).1 (col + 1)
    else (cols, col)

/-- One step of the tokenize loop either continues with a new state or
returns from tokenize with a final state and an error code. -/
inductive StepRes where
  | more (s : TState)
  | done (s : TState) (code : Code)

/-- END_LINE() (tokenizer.c lines 144-164): in header mode advance the
cursor and return NO_ERROR; otherwise pad with empty fields when
fill_extra_cols is set, fail with NOT_ENOUGH_COLS when the row is short and
fill is off, then count the row and return NO_ERROR when the requested row
count is reached. -/
def end_line (fill : Bool) (stripF : Bool) (endv : Int) (header : Bool) (nc : Nat)
    (s : TState) : StepRes :=
  if header then
    StepRes.done {s with source_pos := s.source_pos + 1} Code.noError
  else if fill then
    let fc := fill_cols stripF nc (nc - s.col) s.cols s.col
    let s1 := {s with cols := fc.1, col := fc.2, num_rows := s.num_rows + 1,
                      old_state := PState.startLine}
    if endv ≠ -1 ∧ (s1.num_rows : Int) = endv then
      StepRes.done {s1 with source_pos := s1.source_pos + 1} Code.noError
    else StepRes.more s1
  else if s.col < nc then StepRes.done s Code.notEnoughCols
  else
    let s1 := {s with num_rows := s.num_rows + 1, old_state := PState.startLine}
    if endv ≠ -1 ∧ (s1.num_rows : Int) = endv then
      StepRes.done {s1 with source_pos := s1.source_pos + 1} Code.noError
    else StepRes.more s1

/-- The backward scan of the whitespace-delimited newline edge case
(tokenizer.c lines 340-346): starting at index j and walking down, find the
position where the loop stops, that is the first index holding the
delimiter, a newline or a carriage return; none means the scan ran past the
start of the line buffer (pos -1 in C). -/
def backScan (src : List Byte) (delim : Byte) : Nat → Option Nat
  | 0 =>
    if src.getD 0 0 = delim ∨ src.getD 0 0 = 10 ∨ src.getD 0 0 = 13 then some 0 else none
  | j + 1 =>
    if src.getD (j + 1) 0 = delim ∨ src.getD (j + 1) 0 = 10 ∨ src.getD (j + 1) 0 = 13
    then some (j + 1) else backScan src delim j

/-- The FIELD case of the tokenize switch (tokenizer.c lines 391-421).  The
state field of the argument has already been set to FIELD when this case is
reached by fall-through, matching the C assignments. -/
def stepFIELD (cfg : TokConfig) (fill : Bool) (endv : Int) (header : Bool) (nc : Nat)
    (c : Byte) (s : TState) : StepRes :=
  if cfg.comment ≠ 0 ∧ c = cfg.comment ∧ s.whitespace = true ∧ s.col = 0 then
    StepRes.more {s with state := PState.comment, source_pos := s.source_pos + 1}
  else if c = cfg.delimiter then
    let ec := end_field cfg.strip_whitespace_fields header s.cols s.col
    StepRes.more {s with cols := ec.1, col := ec.2, state := PState.startField,
                         whitespace := true, source_pos := s.source_pos + 1}
  else if c = 13 then
    StepRes.more {s with old_state := PState.field, state := PState.carriageReturn,
                         source_pos := s.source_pos + 1}
  else if c = 10 then
    let ec := end_field cfg.strip_whitespace_fields header s.cols s.col
    match end_line fill cfg.strip_whitespace_fields endv header nc
        {s with cols := ec.1, col := ec.2} with
    | StepRes.more s2 =>
        StepRes.more {s2 with state := PState.startLine, source_pos := s2.source_pos + 1}
    | StepRes.done s2 code => StepRes.done s2 code
  else
    let s1 := if c ≠ 32 ∧ c ≠ 9 then {s with whitespace := false} else s
    StepRes.more {s1 with cols := pushByte s1.cols s1.col c, source_pos := s1.source_pos + 1}

/-- The newline handling inside the START_FIELD case (tokenizer.c lines
317-377): with line stripping, a whitespace delimiter emits nothing and any
other delimiter emits an empty field; without line stripping the tokenizer
backtracks to the previous delimiter or line start and collects trailing
whitespace as a field; then the line is ended. -/
def startFieldNLState (cfg : TokConfig) (header : Bool) (src : List Byte)
    (s : TState) : TState :=
  if cfg.strip_whitespace_lines then
    if cfg.delimiter = 32 ∨ cfg.delimiter = 9 then s
    else
      let ec := end_field cfg.strip_whitespace_fields header s.cols s.col
      {s with cols := ec.1, col := ec.2}
  else
    let tmp := s.source_pos
    let stop := if tmp = 0 then none else backScan src cfg.delimiter (tmp - 1)
    match stop with
    | none => s
    | some q =>
      if src.getD q 0 = 10 ∨ src.getD q 0 = 13 then s
      else
        let slice := (src.drop (q + 1)).take (tmp - (q + 1))
        let cols1 := fun j => if j = s.col then s.cols j ++ slice else s.cols j
        let ec := end_field cfg.strip_whitespace_fields header cols1 s.col
        {s with cols := ec.1, col := ec.2}

/-- The remainder of the START_FIELD newline case: end the line from the
state prepared by startFieldNLState and resume in START_LINE. -/
def stepSTART_FIELD_NL (cfg : TokConfig) (fill : Bool) (endv : Int) (header : Bool)
    (nc : Nat) (src : List Byte) (s : TState) : StepRes :=
  match end_line fill cfg.strip_whitespace_fields endv header nc
      (startFieldNLState cfg header src s) with
  | StepRes.more s2 =>
      StepRes.more {s2 with state := PState.startLine, source_pos := s2.source_pos + 1}
  | StepRes.done s2 code => StepRes.done s2 code

/-- The START_FIELD case of the tokenize switch (tokenizer.c lines 295-389,
including the fall-through into FIELD with the same byte). -/
def stepSTART_FIELD (cfg : TokConfig) (fill : Bool) (endv : Int) (header : Bool)
    (nc : Nat) (src : List Byte) (c : Byte) (s : TState) : StepRes :=
  if (c = 32 ∨ c = 9) ∧ cfg.strip_whitespace_fields then
    StepRes.more {s with source_pos := s.source_pos + 1}
  else if cfg.strip_whitespace_lines = false ∧ cfg.comment ≠ 0 ∧ c = cfg.comment then
    StepRes.more {s with state := PState.comment, source_pos := s.source_pos + 1}
  else if c = cfg.delimiter then
    let ec := end_field cfg.strip_whitespace_fields header s.cols s.col
    StepRes.more {s with cols := ec.1, col := ec.2, state := PState.startField,
                         whitespace := true, source_pos := s.source_pos + 1}
  else if c = 13 then
    StepRes.more {s with old_state := PState.startField, state := PState.carriageReturn,
                         source_pos := s.source_pos + 1}
  else if c = 10 then
    stepSTART_FIELD_NL cfg fill endv header nc src s
  else if c = cfg.quotechar then
    StepRes.more {s with state := PState.startQuotedField, source_pos := s.source_pos + 1}
  else if nc ≤ s.col then
    StepRes.done s Code.tooManyCols
  else
    stepFIELD cfg fill endv header nc c {s with state := PState.field}

/-- The START_LINE case of the tokenize switch (tokenizer.c lines 274-293,
including the fall-through into START_FIELD with the same byte after
BEGIN_FIELD). -/
def stepSTART_LINE (cfg : TokConfig) (fill : Bool) (endv : Int) (header : Bool)
    (nc : Nat) (src : List Byte) (c : Byte) (s : TState) : StepRes :=
  if c = 10 then
    StepRes.more {s with source_pos := s.source_pos + 1}
  else if c = 13 then
    StepRes.more {s with old_state := PState.startLine, state := PState.carriageReturn,
                         source_pos := s.source_pos + 1}
  else if (c = 32 ∨ c = 9) ∧ cfg.strip_whitespace_lines then
    StepRes.more {s with source_pos := s.source_pos + 1}
  else if cfg.comment ≠ 0 ∧ c = cfg.comment then
    StepRes.more {s with state := PState.comment, source_pos := s.source_pos + 1}
  else
    stepSTART_FIELD cfg fill endv header nc src c
      {s with col := 0, state := PState.startField, whitespace := true}

/-- The QUOTED_FIELD case (tokenizer.c lines 464-477). -/
def stepQUOTED_FIELD (cfg : TokConfig) (c : Byte) (s : TState) : StepRes :=
  if c = cfg.quotechar then
    StepRes.more {s with state := PState.field, source_pos := s.source_pos + 1}
  else if c = 10 then
    StepRes.more {s with state := PState.quotedFieldNewline, source_pos := s.source_pos + 1}
  else if c = 13 then
    StepRes.more {s with old_state := PState.quotedField, state := PState.carriageReturn,
                         source_pos := s.source_pos + 1}
  else
    StepRes.more {s with cols := pushByte s.cols s.col c, source_pos := s.source_pos + 1}

/-- The QUOTED_FIELD_NEWLINE case (tokenizer.c lines 440-462), entered with
state QUOTED_FIELD_NEWLINE (the state = QUOTED_FIELD guard concerns the
fall-through from START_QUOTED_FIELD, handled at its call site). -/
def stepQUOTED_FIELD_NL (cfg : TokConfig) (c : Byte) (s : TState) : StepRes :=
  if ((c = 32 ∨ c = 9) ∧ cfg.strip_whitespace_lines) ∨ c = 10 then
    StepRes.more {s with source_pos := s.source_pos + 1}
  else if c = 13 then
    StepRes.more {s with old_state := PState.quotedFieldNewline,
                         state := PState.carriageReturn, source_pos := s.source_pos + 1}
  else if c = cfg.quotechar then
    StepRes.more {s with state := PState.field, source_pos := s.source_pos + 1}
  else
    stepQUOTED_FIELD cfg c {s with state := PState.quotedField}

/-- The START_QUOTED_FIELD case (tokenizer.c lines 423-438): whitespace may
be skipped, an immediate closing quote emits an empty field (leaving the
state unchanged), anything else falls through into QUOTED_FIELD. -/
def stepSTART_QUOTED_FIELD (cfg : TokConfig) (header : Bool) (c : Byte) (s : TState) :
    StepRes :=
  if (c = 32 ∨ c = 9) ∧ cfg.strip_whitespace_fields then
    StepRes.more {s with source_pos := s.source_pos + 1}
  else if c = cfg.quotechar then
    let ec := end_field cfg.strip_whitespace_fields header s.cols s.col
    StepRes.more {s with cols := ec.1, col := ec.2, source_pos := s.source_pos + 1}
  else
    stepQUOTED_FIELD cfg c {s with state := PState.quotedField}

/-- The COMMENT case (tokenizer.c lines 479-486). -/
def stepCOMMENT (c : Byte) (s : TState) : StepRes :=
  if c = 10 then
    StepRes.more {s with state := PState.startLine, source_pos := s.source_pos + 1}
  else if c = 13 then
    StepRes.more {s with old_state := PState.comment, state := PState.carriageReturn,
                         source_pos := s.source_pos + 1}
  else
    StepRes.more {s with source_pos := s.source_pos + 1}

/-- The CARRIAGE_RETURN case (tokenizer.c lines 488-496): restore the saved
state and step back so the byte is reparsed there; a bare CR additionally
steps back onto the CR itself and forces it to be read as a newline.  The
net cursor movement (two decrements plus the loop increment) is applied
directly. -/
def stepCR (c : Byte) (s : TState) : StepRes :=
  if c = 10 then
    StepRes.more {s with state := s.old_state}
  else
    StepRes.more {s with state := s.old_state, source_pos := s.source_pos - 1,
                         parse_newline := true}

/-- One iteration of the tokenize while loop (tokenizer.c lines 263-500):
read the current byte (a synthetic newline at end of input or when
parse_newline is set), clear parse_newline, and dispatch on the state. -/
def stepTok (cfg : TokConfig) (fill : Bool) (src : List Byte) (endv : Int)
    (header : Bool) (nc : Nat) (s : TState) : StepRes :=
  let c : Byte := if s.source_pos = src.length ∨ s.parse_newline then 10
    else src.getD s.source_pos 0
  let s0 := {s with parse_newline := false}
  match s.state with
  | PState.startLine => stepSTART_LINE cfg fill endv header nc src c s0
  | PState.startField => stepSTART_FIELD cfg fill endv header nc src c s0
  | PState.field => stepFIELD cfg fill endv header nc c s0
  | PState.startQuotedField => stepSTART_QUOTED_FIELD cfg header c s0
  | PState.quotedField => stepQUOTED_FIELD cfg c s0
  | PState.quotedFieldNewline => stepQUOTED_FIELD_NL cfg c s0
  | PState.comment => stepCOMMENT c s0
  | PState.carriageReturn => stepCR c s0

/-- The tokenize loop driver: while source_pos < source_len + 1 take a step;
on loop exit return code 0 (NO_ERROR).  The code is returned as an Option:
none marks fuel exhaustion, which never occurs at the fuel used by
tokenize, and which no claim below treats as a success. -/
def runTok (cfg : TokConfig) (fill : Bool) (src : List Byte) (endv : Int)
    (header : Bool) (nc : Nat) : Nat → TState → TState × Option Code
  | 0, s => (s, none)
  | fuel + 1, s =>
    if s.source_pos < src.length + 1 then
      match stepTok cfg fill src endv header nc s with
      | StepRes.more s1 => runTok cfg fill src endv header nc fuel s1
      | StepRes.done s1 code => (s1, some code)
    else (s, some Code.noError)

/-- Result of a tokenize call: the written regions of the column buffers,
the row count, the column count in effect, the final cursor, the final
machine state and the returned code. -/
structure TokResult where
  cols : Nat → List Byte
  num_rows : Nat
  num_cols : Nat
  source_pos : Nat
  state : PState
  code : Option Code

/-- Fuel for the tokenize loop: each source position is visited at most a
bounded number of times (once normally, and at most twice more around a
carriage return), so four passes over the input plus slack always cover the
loop. -/
def tokFuel (src : List Byte) : Nat := 4 * (src.length + 2)

/-- tokenize (tokenizer.c lines 226-503): clear the previous output, force
num_cols to 1 in header mode, allocate fresh empty column buffers, return
at once when end = 0, and otherwise run the state machine from the current
cursor in state START_LINE. -/
def tokenize (cfg : TokConfig) (fill : Bool) (src : List Byte) (pos0 : Nat)
    (endv : Int) (header : Bool) (num_cols : Nat) : TokResult :=
  let nc := if header then 1 else num_cols
  let s0 : TState :=
    { source_pos := pos0, state := PState.startLine, old_state := PState.startLine,
      parse_newline := false, col := 0, whitespace := true, num_rows := 0,
      cols := fun _ => [] }
  if endv = 0 then
    { cols := s0.cols, num_rows := 0, num_cols := nc, source_pos := pos0,
      state := PState.startLine, code := some Code.noError }
  else
    let r := runTok cfg fill src endv header nc (tokFuel src) s0
    { cols := r.1.cols, num_rows := r.1.num_rows, num_cols := nc,
      source_pos := r.1.source_pos, state := r.1.state, code := r.2 }

/-- Number of 0x00 terminator bytes in a written column region. -/
def zc (l : List Byte) : Nat := l.count 0

/-- The configuration of the spec scenarios (section 8): delimiter comma,
comment hash, quote double-quote, both whitespace-stripping flags on. -/
def scenarioConfig : TokConfig := ⟨44, 35, 34, true, true⟩

/-- The scenario configuration with strip_whitespace_lines off, used for the
trailing-whitespace newline edge case. -/
def noLineStripConfig : TokConfig := ⟨44, 35, 34, false, true⟩

/-- The state carried by a StepRes, used to state step lemmas uniformly. -/
def resState : StepRes → TState
  | StepRes.more s => s
  | StepRes.done s _ => s

/-- Between lines, every column of interest holds exactly one terminator per
counted row. -/
def AtLine (nc : Nat) (s : TState) : Prop :=
  ∀ i, i < nc → zc (s.cols i) = s.num_rows

/-- Inside a line, the columns already passed additionally hold the
terminator of the current row. -/
def Mid (nc : Nat) (s : TState) : Prop :=
  ∀ i, i < nc → zc (s.cols i) = s.num_rows + (if i < s.col then 1 else 0)

/-- The per-state part of the terminator-count invariant: the quoted-field
and comment states are unreachable under the side conditions of the
terminator-count theorem (data mode, comments disabled, quote-free
NUL-free input, delimiter not a newline). -/
def stInv (nc : Nat) (s : TState) : PState → Prop
  | PState.startLine => AtLine nc s
  | PState.startField => Mid nc s
  | PState.field => Mid nc s
  | _ => False

/-- The loop invariant of the terminator-count theorem: the per-state
invariant of the effective state (the saved state while resolving a
carriage return), and the fact that the loop leaves the input only in
START_LINE, right after a line was closed by the synthetic newline. -/
def TInv (nc len : Nat) (s : TState) : Prop :=
  stInv nc s (if s.state = PState.carriageReturn then s.old_state else s.state) ∧
  (len < s.source_pos → s.state = PState.startLine)

/-- What one step must establish for the terminator-count theorem: a
continuing step preserves the invariant, a returning step with NO_ERROR
leaves exact counts. -/
def StepOK (nc len : Nat) : StepRes → Prop
  | StepRes.more s => TInv nc len s
  | StepRes.done s code => code = Code.noError → AtLine nc s

/- ------------------------------------------------------------------ -/
/- Theorems                                                            -/
/- ------------------------------------------------------------------ -/

theorem skipAux_exhaust (src : List Byte) (stripL header : Bool) (comm : Byte)
    (offset : Int) :
    ∀ (fuel : Nat) (pos signif : Nat) (com : Bool) (i : Int),
      (countAux src stripL header comm fuel pos signif com : Int) < offset - i →
      (skipAux src stripL header comm offset fuel pos signif com i).1 =
        (if header then Code.invalidLine else Code.noError) := by
  intro fuel
  induction fuel with
  | zero => intro pos signif com i _; rfl
  | succ n ih =>
    intro pos signif com i h
    rw [skipAux]
    have hcn : (0 : Int) ≤ (countAux src stripL header comm (n + 1) pos signif com : Int) :=
      Int.ofNat_nonneg _
    have hlt : i < offset := by omega
    rw [if_neg (by omega)]
    by_cases hpos : src.length ≤ pos
    · rw [if_pos hpos]
    · rw [if_neg hpos]
      apply ih
      have hcount : countAux src stripL header comm (n + 1) pos signif com =
          (if (skipStep src stripL header comm pos signif com).counted then 1 else 0) +
          countAux src stripL header comm n
            (skipStep src stripL header comm pos signif com).pos
            (skipStep src stripL header comm pos signif com).signif
            (skipStep src stripL header comm pos signif com).com := by
        rw [countAux, if_neg hpos]
      rw [hcount] at h
      by_cases hb : (skipStep src stripL header comm pos signif com).counted = true
      · rw [if_pos hb] at h; rw [if_pos hb]; push_cast at h ⊢; omega
      · rw [if_neg hb] at h; rw [if_neg hb]; push_cast at h ⊢; omega

/-- C6: for every offset and input, if the input ends before offset
significant lines are found (counted with the significance rules of the
respective mode), skip_lines returns INVALID_LINE in header mode and
NO_ERROR in data mode. -/
theorem skip_lines_exhausted (src : List Byte) (pos : Nat) (offset : Int)
    (stripL : Bool) (comm : Byte) :
    ((countAvail src pos true stripL comm : Int) < offset →
      (skip_lines src pos offset true stripL comm).1 = Code.invalidLine) ∧
    ((countAvail src pos false stripL comm : Int) < offset →
      (skip_lines src pos offset false stripL comm).1 = Code.noError) := by
  constructor
  · intro h
    have := skipAux_exhaust src stripL true comm offset (src.length + 1) pos 0 false 0
      (by simpa [countAvail] using h)
    simpa [skip_lines] using this
  · intro h
    have := skipAux_exhaust src stripL false comm offset (src.length + 1) pos 0 false 0
      (by simpa [countAvail] using h)
    simpa [skip_lines] using this

/-- Witness for C6: the input "a\n" holds one significant line, so asking to
skip 5 lines exhausts it; header mode fails with INVALID_LINE and data mode
returns NO_ERROR. -/
theorem skip_lines_exhausted_wit :
    ((countAvail [97, 10] 0 true true 35 : Int) < 5 ∧
      (skip_lines [97, 10] 0 5 true true 35).1 = Code.invalidLine) ∧
    ((countAvail [97, 10] 0 false true 35 : Int) < 5 ∧
      (skip_lines [97, 10] 0 5 false true 35).1 = Code.noError) :=
  ⟨⟨by decide, (skip_lines_exhausted [97, 10] 0 5 true 35).1 (by decide)⟩,
   ⟨by decide, (skip_lines_exhausted [97, 10] 0 5 false 35).2 (by decide)⟩⟩

/-- C10: for every offset at most 0, in both modes and for every input,
skip_lines returns NO_ERROR (which is also the code it stores) and leaves
source_pos unchanged: the while loop guard i < offset fails immediately. -/
theorem skip_lines_nonpos (src : List Byte) (pos : Nat) (offset : Int)
    (header stripL : Bool) (comm : Byte) (h : offset ≤ 0) :
    skip_lines src pos offset header stripL comm = (Code.noError, pos) := by
  unfold skip_lines
  rw [skipAux, if_pos h]

/-- Witness for C10 at offset -3 on a nonempty input. -/
theorem skip_lines_nonpos_wit :
    (-3 : Int) ≤ 0 ∧ skip_lines [97, 10, 98] 2 (-3) true true 35 = (Code.noError, 2) :=
  ⟨by decide, skip_lines_nonpos [97, 10, 98] 2 (-3) true true 35 (by decide)⟩

/-- C8: a field whose packed encoding begins with 0x01 is reported by
next_field with length 0 and the shared persistent empty buffer, not a
pointer into the column buffer; and every output of positive length is a
pointer into the column buffer whose first byte is not 0x01, so no iterator
output for a non-empty field begins with 0x01 (for any buffer, in
particular for buffers produced from inputs free of 0x00 and 0x01). -/
theorem next_field_empty_sentinel (buf : List Byte) (pos : Nat) :
    (buf.getD pos 0 = 1 →
      (next_field buf pos).ptr = FieldPtr.sharedEmpty ∧ (next_field buf pos).size = 0) ∧
    (0 < (next_field buf pos).size →
      (next_field buf pos).ptr = FieldPtr.inBuf pos ∧ buf.getD pos 0 ≠ 1) := by
  constructor
  · intro h1
    unfold next_field
    rw [if_pos h1]
    exact ⟨rfl, rfl⟩
  · intro hsz
    by_cases h1 : buf.getD pos 0 = 1
    · exfalso
      unfold next_field at hsz
      rw [if_pos h1] at hsz
      exact Nat.lt_irrefl 0 hsz
    · unfold next_field
      rw [if_neg h1]
      exact ⟨rfl, h1⟩

/-- Witness for C8 on the buffer holding an empty field followed by the
field "a": the empty field at offset 0 yields the shared buffer with
length 0, and the field at offset 2 has positive length, lives in the
buffer and does not begin with 0x01. -/
theorem next_field_empty_sentinel_wit :
    ([1, 0, 97, 0] : List Byte).getD 0 0 = 1 ∧
    ((next_field [1, 0, 97, 0] 0).ptr = FieldPtr.sharedEmpty ∧
      (next_field [1, 0, 97, 0] 0).size = 0) ∧
    0 < (next_field [1, 0, 97, 0] 2).size ∧
    ((next_field [1, 0, 97, 0] 2).ptr = FieldPtr.inBuf 2 ∧
      ([1, 0, 97, 0] : List Byte).getD 2 0 ≠ 1) :=
  ⟨by decide, (next_field_empty_sentinel [1, 0, 97, 0] 0).1 (by decide),
   by decide, (next_field_empty_sentinel [1, 0, 97, 0] 2).2 (by decide)⟩

/-- C9: with the fast converter and thousands separator ',' (hard-coded at
the xstrtod call site), to_double on "1,234.5" returns exactly 1234.5 and
leaves the error code unchanged, whatever it was: no CONVERSION_ERROR and
no OVERFLOW_ERROR is set.  Every intermediate double value on this input
(integers up to 12345 and the final exact division by 10) is exactly
representable in binary64, so the exact rational model coincides with the
C double computation. -/
theorem str_to_double_fast_tsep (code : Code) :
    str_to_double code [49, 44, 50, 51, 52, 46, 53] = ((2469 : ℚ) / 2, code) := by
  norm_num [str_to_double, xstrtod, xdigits, xfrac, xexp, xscale, isdigit, isspace,
    c_toupper, List.dropWhile]
/-- C1 counterexample: in header mode on "a,b,c\n1,2,3\n" with delimiter
',' and end -1, column 0 does not contain the bytes a , b , c followed by
one 0x00: delimiters are not copied into the header column.  (The FIELD
case ends a field at every delimiter also in header mode; only the col
increment is suppressed.) -/
theorem tokenize_header_whole_line_cex :
    (tokenize scenarioConfig false [97, 44, 98, 44, 99, 10, 49, 44, 50, 44, 51, 10]
        0 (-1) true 3).cols 0 ≠ [97, 44, 98, 44, 99, 0] := by
  decide

/-- C1 amended: header mode forces num_cols to 1 (for every input and
configuration) and writes the header fields of the first line in sequence
into column 0, each terminated by 0x00 where a delimiter or the line end
stood; on "a,b,c\n1,2,3\n" with delimiter ',' and end -1, column 0
contains a 0x00 b 0x00 c 0x00, num_rows stays 0, the cursor stops after
the header line and the call returns NO_ERROR. -/
theorem tokenize_header_splits_fields :
    (∀ (cfg : TokConfig) (fill : Bool) (src : List Byte) (pos0 : Nat) (endv : Int)
      (ncols : Nat), (tokenize cfg fill src pos0 endv true ncols).num_cols = 1) ∧
    (tokenize scenarioConfig false [97, 44, 98, 44, 99, 10, 49, 44, 50, 44, 51, 10]
        0 (-1) true 3).cols 0 = [97, 0, 98, 0, 99, 0] ∧
    (tokenize scenarioConfig false [97, 44, 98, 44, 99, 10, 49, 44, 50, 44, 51, 10]
        0 (-1) true 3).num_rows = 0 ∧
    (tokenize scenarioConfig false [97, 44, 98, 44, 99, 10, 49, 44, 50, 44, 51, 10]
        0 (-1) true 3).source_pos = 6 ∧
    (tokenize scenarioConfig false [97, 44, 98, 44, 99, 10, 49, 44, 50, 44, 51, 10]
        0 (-1) true 3).code = some Code.noError := by
  refine ⟨fun cfg fill src pos0 endv ncols => ?_, by decide, by decide, by decide, by decide⟩
  by_cases h0 : endv = 0
  · simp only [tokenize, if_pos h0]; simp
  · simp only [tokenize, if_neg h0]; simp

/-- C3 counterexample: a second tokenize call in immediate succession (same
arguments, same installed input "a\n") resumes from the stored cursor,
which the first call left past the end of the input, so it produces an
empty column 0 instead of the bytes a 0x00 produced by the first call. -/
theorem tokenize_rerun_differs :
    (tokenize scenarioConfig false [97, 10]
        (tokenize scenarioConfig false [97, 10] 0 (-1) false 1).source_pos
        (-1) false 1).cols 0 ≠
      (tokenize scenarioConfig false [97, 10] 0 (-1) false 1).cols 0 := by
  decide

/-- C3 amended: tokenize reads the input from the stored cursor, which it
does not rewind; a second immediate call therefore tokenizes the remaining
input, and when the cursor is already past the end of the input (as after
a first call that consumed it) the second call returns NO_ERROR with zero
rows and all columns empty.  Byte-identical output requires resetting the
cursor (reinstalling the source) before the second call. -/
theorem runTok_exhausted (cfg : TokConfig) (fill : Bool) (src : List Byte)
    (endv : Int) (header : Bool) (nc k : Nat) (s : TState)
    (h : src.length + 1 ≤ s.source_pos) :
    runTok cfg fill src endv header nc (k + 1) s = (s, some Code.noError) := by
  rw [runTok, if_neg (by omega)]

theorem tokenize_from_exhausted_cursor (cfg : TokConfig) (fill : Bool)
    (src : List Byte) (pos0 : Nat) (endv : Int) (header : Bool) (ncols : Nat)
    (h : src.length + 1 ≤ pos0) :
    (tokenize cfg fill src pos0 endv header ncols).num_rows = 0 ∧
    (tokenize cfg fill src pos0 endv header ncols).code = some Code.noError ∧
    ∀ i, (tokenize cfg fill src pos0 endv header ncols).cols i = [] := by
  by_cases h0 : endv = 0
  · simp only [tokenize, if_pos h0]
    simp
  · obtain ⟨k, hk⟩ : ∃ k, tokFuel src = k + 1 := ⟨4 * (src.length + 2) - 1, by
      unfold tokFuel; omega⟩
    simp only [tokenize, if_neg h0]
    rw [hk, runTok_exhausted cfg fill src endv header _ k _ h]
    simp

/-- Witness for the C3 amended theorem: from cursor 3 on the two-byte input
"a\n" the call returns no rows, NO_ERROR, and an empty column 0. -/
theorem tokenize_from_exhausted_cursor_wit :
    ([97, 10] : List Byte).length + 1 ≤ 3 ∧
    ((tokenize scenarioConfig false [97, 10] 3 (-1) false 1).num_rows = 0 ∧
      (tokenize scenarioConfig false [97, 10] 3 (-1) false 1).code = some Code.noError ∧
      ∀ i, (tokenize scenarioConfig false [97, 10] 3 (-1) false 1).cols i = []) :=
  ⟨by decide, tokenize_from_exhausted_cursor scenarioConfig false [97, 10] 3 (-1) false 1
    (by decide)⟩

/-- C5: the inputs "x, \r\n" and "x, \n" differ only by replacing the one
CRLF pair with a newline, yet with strip_whitespace_lines off, delimiter
',' and num_cols 2 the first fails with NOT_ENOUGH_COLS while the second
finds a second (whitespace, stripped to empty) field and succeeds with one
row: the END_FIELD backtrack of the START_FIELD newline case stops at the
leftover carriage-return byte and treats it as the line start, so the
trailing whitespace field is lost.  This contradicts the CRLF-equivalence
property the spec states, which the CARRIAGE_RETURN machinery exists to
provide. -/
theorem tokenize_crlf_divergence :
    (tokenize noLineStripConfig false [120, 44, 32, 13, 10] 0 (-1) false 2).code =
        some Code.notEnoughCols ∧
    (tokenize noLineStripConfig false [120, 44, 32, 10] 0 (-1) false 2).code =
        some Code.noError ∧
    (tokenize noLineStripConfig false [120, 44, 32, 10] 0 (-1) false 2).num_rows = 1 := by
  refine ⟨by decide, by decide, by decide⟩

/-- C7: on the input "1,2,\n" with num_cols 2 the data row holds three
fields (the third one empty), yet tokenize returns NO_ERROR with one row
instead of TOO_MANY_COLS: the bound col < num_cols is only checked when an
unquoted field starts with an ordinary character, so the trailing empty
field is written through col_ptrs[2], one past the end of the allocated
column arrays (the model records that write in the otherwise unused entry
2 of the total column map). -/
theorem tokenize_extra_empty_field_no_error :
    (tokenize scenarioConfig false [49, 44, 50, 44, 10] 0 (-1) false 2).code =
        some Code.noError ∧
    (tokenize scenarioConfig false [49, 44, 50, 44, 10] 0 (-1) false 2).num_rows = 1 ∧
    (tokenize scenarioConfig false [49, 44, 50, 44, 10] 0 (-1) false 2).cols 2 = [1, 0] := by
  refine ⟨by decide, by decide, by decide⟩

/-- C4 counterexample: on the input "1\n" with num_cols 2, tokenize with
fill_extra_cols enabled yields one row while with it disabled it stops at
NOT_ENOUGH_COLS with zero rows, so enabling fill_extra_cols does yield a
larger num_rows than disabling it. -/
theorem tokenize_fill_more_rows_cex :
    ¬ ((tokenize scenarioConfig true [49, 10] 0 (-1) false 2).num_rows ≤
        (tokenize scenarioConfig false [49, 10] 0 (-1) false 2).num_rows) := by
  decide

/-- The row count never decreases across END_LINE. -/
theorem end_line_rows (fill stripF : Bool) (endv : Int) (header : Bool) (nc : Nat)
    (s : TState) :
    s.num_rows ≤ (resState (end_line fill stripF endv header nc s)).num_rows := by
  simp only [end_line]
  repeat' split
  all_goals simp [resState]

/-- The state prepared for END_LINE by the START_FIELD newline case keeps the
row count. -/
theorem startFieldNLState_rows (cfg : TokConfig) (header : Bool) (src : List Byte)
    (s : TState) : (startFieldNLState cfg header src s).num_rows = s.num_rows := by
  simp only [startFieldNLState]
  repeat' split
  all_goals rfl

/-- The row count never decreases across the END_LINE match that closes a
line from the START_FIELD and FIELD newline handlers. -/
theorem match_endline_rows (fill stripF : Bool) (endv : Int) (header : Bool)
    (nc : Nat) (s1 : TState) :
    s1.num_rows ≤ (resState (match end_line fill stripF endv header nc s1 with
      | StepRes.more s2 =>
          StepRes.more {s2 with state := PState.startLine, source_pos := s2.source_pos + 1}
      | StepRes.done s2 code => StepRes.done s2 code)).num_rows := by
  have h := end_line_rows fill stripF endv header nc s1
  cases he : end_line fill stripF endv header nc s1 with
  | more s2 => rw [he] at h; simpa [resState] using h
  | done s2 code => rw [he] at h; simpa [resState] using h

theorem stepFIELD_rows (cfg : TokConfig) (fill : Bool) (endv : Int) (header : Bool)
    (nc : Nat) (c : Byte) (s : TState) :
    s.num_rows ≤ (resState (stepFIELD cfg fill endv header nc c s)).num_rows := by
  simp only [stepFIELD]
  by_cases h1 : cfg.comment ≠ 0 ∧ c = cfg.comment ∧ s.whitespace = true ∧ s.col = 0
  · rw [if_pos h1]; exact Nat.le_refl _
  · rw [if_neg h1]
    by_cases h2 : c = cfg.delimiter
    · rw [if_pos h2]; exact Nat.le_refl _
    · rw [if_neg h2]
      by_cases h3 : c = 13
      · rw [if_pos h3]; exact Nat.le_refl _
      · rw [if_neg h3]
        by_cases h4 : c = 10
        · rw [if_pos h4]
          exact match_endline_rows fill cfg.strip_whitespace_fields endv header nc
            {s with cols := (end_field cfg.strip_whitespace_fields header s.cols s.col).1,
                    col := (end_field cfg.strip_whitespace_fields header s.cols s.col).2}
        · rw [if_neg h4]
          split <;> exact Nat.le_refl _

theorem stepSTART_FIELD_NL_rows (cfg : TokConfig) (fill : Bool) (endv : Int)
    (header : Bool) (nc : Nat) (src : List Byte) (s : TState) :
    s.num_rows ≤ (resState (stepSTART_FIELD_NL cfg fill endv header nc src s)).num_rows := by
  have h := match_endline_rows fill cfg.strip_whitespace_fields endv header nc
    (startFieldNLState cfg header src s)
  rw [startFieldNLState_rows] at h
  exact h

theorem stepSTART_FIELD_rows (cfg : TokConfig) (fill : Bool) (endv : Int)
    (header : Bool) (nc : Nat) (src : List Byte) (c : Byte) (s : TState) :
    s.num_rows ≤ (resState (stepSTART_FIELD cfg fill endv header nc src c s)).num_rows := by
  simp only [stepSTART_FIELD]
  by_cases h1 : (c = 32 ∨ c = 9) ∧ cfg.strip_whitespace_fields = true
  · rw [if_pos h1]; exact Nat.le_refl _
  · rw [if_neg h1]
    by_cases h2 : cfg.strip_whitespace_lines = false ∧ cfg.comment ≠ 0 ∧ c = cfg.comment
    · rw [if_pos h2]; exact Nat.le_refl _
    · rw [if_neg h2]
      by_cases h3 : c = cfg.delimiter
      · rw [if_pos h3]; exact Nat.le_refl _
      · rw [if_neg h3]
        by_cases h4 : c = 13
        · rw [if_pos h4]; exact Nat.le_refl _
        · rw [if_neg h4]
          by_cases h5 : c = 10
          · rw [if_pos h5]
            exact stepSTART_FIELD_NL_rows cfg fill endv header nc src s
          · rw [if_neg h5]
            by_cases h6 : c = cfg.quotechar
            · rw [if_pos h6]; exact Nat.le_refl _
            · rw [if_neg h6]
              by_cases h7 : nc ≤ s.col
              · rw [if_pos h7]; exact Nat.le_refl _
              · rw [if_neg h7]
                exact stepFIELD_rows cfg fill endv header nc c {s with state := PState.field}

theorem stepSTART_LINE_rows (cfg : TokConfig) (fill : Bool) (endv : Int)
    (header : Bool) (nc : Nat) (src : List Byte) (c : Byte) (s : TState) :
    s.num_rows ≤ (resState (stepSTART_LINE cfg fill endv header nc src c s)).num_rows := by
  simp only [stepSTART_LINE]
  by_cases h1 : c = 10
  · rw [if_pos h1]; exact Nat.le_refl _
  · rw [if_neg h1]
    by_cases h2 : c = 13
    · rw [if_pos h2]; exact Nat.le_refl _
    · rw [if_neg h2]
      by_cases h3 : (c = 32 ∨ c = 9) ∧ cfg.strip_whitespace_lines = true
      · rw [if_pos h3]; exact Nat.le_refl _
      · rw [if_neg h3]
        by_cases h4 : cfg.comment ≠ 0 ∧ c = cfg.comment
        · rw [if_pos h4]; exact Nat.le_refl _
        · rw [if_neg h4]
          exact stepSTART_FIELD_rows cfg fill endv header nc src c
            {s with col := 0, state := PState.startField, whitespace := true}

theorem stepQUOTED_FIELD_rows (cfg : TokConfig) (c : Byte) (s : TState) :
    s.num_rows ≤ (resState (stepQUOTED_FIELD cfg c s)).num_rows := by
  simp only [stepQUOTED_FIELD]
  repeat' split
  all_goals exact Nat.le_refl _

theorem stepQUOTED_FIELD_NL_rows (cfg : TokConfig) (c : Byte) (s : TState) :
    s.num_rows ≤ (resState (stepQUOTED_FIELD_NL cfg c s)).num_rows := by
  simp only [stepQUOTED_FIELD_NL]
  by_cases h1 : ((c = 32 ∨ c = 9) ∧ cfg.strip_whitespace_lines = true) ∨ c = 10
  · rw [if_pos h1]; exact Nat.le_refl _
  · rw [if_neg h1]
    by_cases h2 : c = 13
    · rw [if_pos h2]; exact Nat.le_refl _
    · rw [if_neg h2]
      by_cases h3 : c = cfg.quotechar
      · rw [if_pos h3]; exact Nat.le_refl _
      · rw [if_neg h3]
        exact stepQUOTED_FIELD_rows cfg c {s with state := PState.quotedField}

theorem stepSTART_QUOTED_FIELD_rows (cfg : TokConfig) (header : Bool) (c : Byte)
    (s : TState) :
    s.num_rows ≤ (resState (stepSTART_QUOTED_FIELD cfg header c s)).num_rows := by
  simp only [stepSTART_QUOTED_FIELD]
  by_cases h1 : (c = 32 ∨ c = 9) ∧ cfg.strip_whitespace_fields = true
  · rw [if_pos h1]; exact Nat.le_refl _
  · rw [if_neg h1]
    by_cases h2 : c = cfg.quotechar
    · rw [if_pos h2]; exact Nat.le_refl _
    · rw [if_neg h2]
      exact stepQUOTED_FIELD_rows cfg c {s with state := PState.quotedField}

theorem stepCOMMENT_rows (c : Byte) (s : TState) :
    s.num_rows ≤ (resState (stepCOMMENT c s)).num_rows := by
  simp only [stepCOMMENT]
  repeat' split
  all_goals exact Nat.le_refl _

theorem stepCR_rows (c : Byte) (s : TState) :
    s.num_rows ≤ (resState (stepCR c s)).num_rows := by
  simp only [stepCR]
  split <;> exact Nat.le_refl _

/-- The row count never decreases across one step of the tokenize loop. -/
theorem stepTok_rows (cfg : TokConfig) (fill : Bool) (src : List Byte) (endv : Int)
    (header : Bool) (nc : Nat) (s : TState) :
    s.num_rows ≤ (resState (stepTok cfg fill src endv header nc s)).num_rows := by
  obtain ⟨pos, st, old, pn, col, ws, nr, cols⟩ := s
  simp only [stepTok]
  cases st
  · exact stepSTART_LINE_rows cfg fill endv header nc src _
      ⟨pos, PState.startLine, old, false, col, ws, nr, cols⟩
  · exact stepSTART_FIELD_rows cfg fill endv header nc src _
      ⟨pos, PState.startField, old, false, col, ws, nr, cols⟩
  · exact stepFIELD_rows cfg fill endv header nc _
      ⟨pos, PState.field, old, false, col, ws, nr, cols⟩
  · exact stepSTART_QUOTED_FIELD_rows cfg header _
      ⟨pos, PState.startQuotedField, old, false, col, ws, nr, cols⟩
  · exact stepQUOTED_FIELD_rows cfg _
      ⟨pos, PState.quotedField, old, false, col, ws, nr, cols⟩
  · exact stepQUOTED_FIELD_NL_rows cfg _
      ⟨pos, PState.quotedFieldNewline, old, false, col, ws, nr, cols⟩
  · exact stepCOMMENT_rows _ ⟨pos, PState.comment, old, false, col, ws, nr, cols⟩
  · exact stepCR_rows _ ⟨pos, PState.carriageReturn, old, false, col, ws, nr, cols⟩

/-- The row count never decreases along the tokenize loop. -/
theorem runTok_rows (cfg : TokConfig) (fill : Bool) (src : List Byte) (endv : Int)
    (header : Bool) (nc : Nat) :
    ∀ (fuel : Nat) (s : TState),
      s.num_rows ≤ (runTok cfg fill src endv header nc fuel s).1.num_rows := by
  intro fuel
  induction fuel with
  | zero => intro s; exact Nat.le_refl _
  | succ n ih =>
    intro s
    rw [runTok]
    by_cases hp : s.source_pos < src.length + 1
    · rw [if_pos hp]
      have h1 := stepTok_rows cfg fill src endv header nc s
      cases hstep : stepTok cfg fill src endv header nc s with
      | more s1 =>
        rw [hstep] at h1
        simp only [resState] at h1
        exact Nat.le_trans h1 (ih s1)
      | done s1 code =>
        rw [hstep] at h1
        simpa [resState] using h1
    · rw [if_neg hp]

/-- END_LINE differs between the two fill_extra_cols settings only when the
row is short (col < num_cols, data mode): there the disabled setting
returns NOT_ENOUGH_COLS with the state unchanged.  In every other case the
two settings produce the same result (with col ≥ num_cols the fill loop
body never runs). -/
theorem end_line_fill (stripF : Bool) (endv : Int) (header : Bool) (nc : Nat)
    (s : TState) :
    end_line false stripF endv header nc s = end_line true stripF endv header nc s ∨
    end_line false stripF endv header nc s = StepRes.done s Code.notEnoughCols := by
  simp only [end_line]
  by_cases hh : header = true
  · left; rw [if_pos hh, if_pos hh]
  · rw [if_neg hh, if_neg hh]
    by_cases hcol : s.col < nc
    · right
      rw [if_neg (by simp), if_pos hcol]
    · left
      rw [if_neg (by simp), if_neg hcol, if_pos trivial]
      have hz : nc - s.col = 0 := by omega
      rw [hz]
      obtain ⟨pos, st, old, pn, col, ws, nr, cols⟩ := s
      rfl

/-- Lifting end_line_fill through the match that closes a line. -/
theorem match_endline_fill (stripF : Bool) (endv : Int) (header : Bool)
    (nc : Nat) (s1 : TState) :
    (match end_line false stripF endv header nc s1 with
      | StepRes.more s2 =>
          StepRes.more {s2 with state := PState.startLine, source_pos := s2.source_pos + 1}
      | StepRes.done s2 code => StepRes.done s2 code) =
    (match end_line true stripF endv header nc s1 with
      | StepRes.more s2 =>
          StepRes.more {s2 with state := PState.startLine, source_pos := s2.source_pos + 1}
      | StepRes.done s2 code => StepRes.done s2 code) ∨
    (match end_line false stripF endv header nc s1 with
      | StepRes.more s2 =>
          StepRes.more {s2 with state := PState.startLine, source_pos := s2.source_pos + 1}
      | StepRes.done s2 code => StepRes.done s2 code) =
      StepRes.done s1 Code.notEnoughCols := by
  rcases end_line_fill stripF endv header nc s1 with he | he
  · left; rw [he]
  · right; rw [he]

theorem stepFIELD_fill (cfg : TokConfig) (endv : Int) (header : Bool) (nc : Nat)
    (c : Byte) (s : TState) :
    stepFIELD cfg false endv header nc c s = stepFIELD cfg true endv header nc c s ∨
    ∃ s1, stepFIELD cfg false endv header nc c s = StepRes.done s1 Code.notEnoughCols ∧
      s1.num_rows = s.num_rows := by
  simp only [stepFIELD]
  by_cases h1 : cfg.comment ≠ 0 ∧ c = cfg.comment ∧ s.whitespace = true ∧ s.col = 0
  · left; rw [if_pos h1, if_pos h1]
  · rw [if_neg h1, if_neg h1]
    by_cases h2 : c = cfg.delimiter
    · left; rw [if_pos h2, if_pos h2]
    · rw [if_neg h2, if_neg h2]
      by_cases h3 : c = 13
      · left; rw [if_pos h3, if_pos h3]
      · rw [if_neg h3, if_neg h3]
        by_cases h4 : c = 10
        · rw [if_pos h4, if_pos h4]
          rcases match_endline_fill cfg.strip_whitespace_fields endv header nc
              {s with cols := (end_field cfg.strip_whitespace_fields header s.cols s.col).1,
                      col := (end_field cfg.strip_whitespace_fields header s.cols s.col).2}
            with he | he
          · left; exact he
          · right
            exact ⟨_, he, rfl⟩
        · left; rw [if_neg h4, if_neg h4]

theorem stepSTART_FIELD_NL_fill (cfg : TokConfig) (endv : Int) (header : Bool)
    (nc : Nat) (src : List Byte) (s : TState) :
    stepSTART_FIELD_NL cfg false endv header nc src s =
      stepSTART_FIELD_NL cfg true endv header nc src s ∨
    ∃ s1, stepSTART_FIELD_NL cfg false endv header nc src s =
        StepRes.done s1 Code.notEnoughCols ∧ s1.num_rows = s.num_rows := by
  simp only [stepSTART_FIELD_NL]
  rcases match_endline_fill cfg.strip_whitespace_fields endv header nc
      (startFieldNLState cfg header src s) with he | he
  · left; exact he
  · right
    exact ⟨_, he, startFieldNLState_rows cfg header src s⟩

theorem stepSTART_FIELD_fill (cfg : TokConfig) (endv : Int) (header : Bool)
    (nc : Nat) (src : List Byte) (c : Byte) (s : TState) :
    stepSTART_FIELD cfg false endv header nc src c s =
      stepSTART_FIELD cfg true endv header nc src c s ∨
    ∃ s1, stepSTART_FIELD cfg false endv header nc src c s =
        StepRes.done s1 Code.notEnoughCols ∧ s1.num_rows = s.num_rows := by
  simp only [stepSTART_FIELD]
  by_cases h1 : (c = 32 ∨ c = 9) ∧ cfg.strip_whitespace_fields = true
  · left; rw [if_pos h1, if_pos h1]
  · rw [if_neg h1, if_neg h1]
    by_cases h2 : cfg.strip_whitespace_lines = false ∧ cfg.comment ≠ 0 ∧ c = cfg.comment
    · left; rw [if_pos h2, if_pos h2]
    · rw [if_neg h2, if_neg h2]
      by_cases h3 : c = cfg.delimiter
      · left; rw [if_pos h3, if_pos h3]
      · rw [if_neg h3, if_neg h3]
        by_cases h4 : c = 13
        · left; rw [if_pos h4, if_pos h4]
        · rw [if_neg h4, if_neg h4]
          by_cases h5 : c = 10
          · rw [if_pos h5, if_pos h5]
            exact stepSTART_FIELD_NL_fill cfg endv header nc src s
          · rw [if_neg h5, if_neg h5]
            by_cases h6 : c = cfg.quotechar
            · left; rw [if_pos h6, if_pos h6]
            · rw [if_neg h6, if_neg h6]
              by_cases h7 : nc ≤ s.col
              · left; rw [if_pos h7, if_pos h7]
              · rw [if_neg h7, if_neg h7]
                exact stepFIELD_fill cfg endv header nc c {s with state := PState.field}

theorem stepSTART_LINE_fill (cfg : TokConfig) (endv : Int) (header : Bool)
    (nc : Nat) (src : List Byte) (c : Byte) (s : TState) :
    stepSTART_LINE cfg false endv header nc src c s =
      stepSTART_LINE cfg true endv header nc src c s ∨
    ∃ s1, stepSTART_LINE cfg false endv header nc src c s =
        StepRes.done s1 Code.notEnoughCols ∧ s1.num_rows = s.num_rows := by
  simp only [stepSTART_LINE]
  by_cases h1 : c = 10
  · left; rw [if_pos h1, if_pos h1]
  · rw [if_neg h1, if_neg h1]
    by_cases h2 : c = 13
    · left; rw [if_pos h2, if_pos h2]
    · rw [if_neg h2, if_neg h2]
      by_cases h3 : (c = 32 ∨ c = 9) ∧ cfg.strip_whitespace_lines = true
      · left; rw [if_pos h3, if_pos h3]
      · rw [if_neg h3, if_neg h3]
        by_cases h4 : cfg.comment ≠ 0 ∧ c = cfg.comment
        · left; rw [if_pos h4, if_pos h4]
        · rw [if_neg h4, if_neg h4]
          exact stepSTART_FIELD_fill cfg endv header nc src c
            {s with col := 0, state := PState.startField, whitespace := true}

/-- One step of the tokenize loop with fill off either equals the step with
fill on, or returns NOT_ENOUGH_COLS without having changed the row count. -/
theorem stepTok_fill (cfg : TokConfig) (src : List Byte) (endv : Int)
    (header : Bool) (nc : Nat) (s : TState) :
    stepTok cfg false src endv header nc s = stepTok cfg true src endv header nc s ∨
    ∃ s1, stepTok cfg false src endv header nc s = StepRes.done s1 Code.notEnoughCols ∧
      s1.num_rows = s.num_rows := by
  obtain ⟨pos, st, old, pn, col, ws, nr, cols⟩ := s
  simp only [stepTok]
  cases st
  · exact stepSTART_LINE_fill cfg endv header nc src _
      ⟨pos, PState.startLine, old, false, col, ws, nr, cols⟩
  · exact stepSTART_FIELD_fill cfg endv header nc src _
      ⟨pos, PState.startField, old, false, col, ws, nr, cols⟩
  · exact stepFIELD_fill cfg endv header nc _
      ⟨pos, PState.field, old, false, col, ws, nr, cols⟩
  · left; rfl
  · left; rfl
  · left; rfl
  · left; rfl
  · left; rfl

/-- From the same state, the tokenize loop with fill_extra_cols off never
produces more rows than the loop with it on: the two runs take identical
steps until the disabled run stops at NOT_ENOUGH_COLS, after which the
enabled run can only add rows. -/
theorem runTok_fill_le (cfg : TokConfig) (src : List Byte) (endv : Int)
    (header : Bool) (nc : Nat) :
    ∀ (fuel : Nat) (s : TState),
      (runTok cfg false src endv header nc fuel s).1.num_rows ≤
      (runTok cfg true src endv header nc fuel s).1.num_rows := by
  intro fuel
  induction fuel with
  | zero => intro s; exact Nat.le_refl _
  | succ n ih =>
    intro s
    rw [runTok, runTok]
    by_cases hp : s.source_pos < src.length + 1
    · rw [if_pos hp, if_pos hp]
      rcases stepTok_fill cfg src endv header nc s with he | ⟨s1, he, hrows⟩
      · rw [he]
        cases ht : stepTok cfg true src endv header nc s with
        | more s2 => exact ih s2
        | done s2 code => exact Nat.le_refl _
      · rw [he]
        have h2 := stepTok_rows cfg true src endv header nc s
        cases ht : stepTok cfg true src endv header nc s with
        | more s2 =>
          rw [ht] at h2
          simp only [resState] at h2
          have h3 := runTok_rows cfg true src endv header nc n s2
          simpa [hrows] using Nat.le_trans h2 h3
        | done s2 code =>
          rw [ht] at h2
          simp only [resState] at h2
          simpa [hrows] using h2
    · rw [if_neg hp, if_neg hp]

/-- C4 amended: for every input, configuration and argument list, running
tokenize with fill_extra_cols enabled never yields a smaller num_rows than
running it with fill_extra_cols disabled; enabling it only converts
NOT_ENOUGH_COLS failures into successfully padded rows, after which
parsing continues and the row count can only grow further. -/
theorem tokenize_fill_monotone (cfg : TokConfig) (src : List Byte) (pos0 : Nat)
    (endv : Int) (header : Bool) (ncols : Nat) :
    (tokenize cfg false src pos0 endv header ncols).num_rows ≤
    (tokenize cfg true src pos0 endv header ncols).num_rows := by
  by_cases h0 : endv = 0
  · simp [tokenize, h0]
  · simp only [tokenize, if_neg h0]
    exact runTok_fill_le cfg src endv header (if header = true then 1 else ncols)
      (tokFuel src) _

/- Terminator-count invariant (C2). -/

theorem zc_append (a b : List Byte) : zc (a ++ b) = zc a + zc b :=
  List.count_append 0 a b

/-- Stripping trailing spaces and tabs removes no terminators. -/
theorem zc_stripTrailing (l : List Byte) : zc (stripTrailing l) = zc l := by
  unfold stripTrailing zc
  rw [List.count_reverse]
  conv_rhs => rw [← List.count_reverse]
  conv_rhs => rw [← List.takeWhile_append_dropWhile (p := isFieldWS) (l := l.reverse)]
  rw [List.count_append]
  have hz : (l.reverse.takeWhile isFieldWS).count 0 = 0 := by
    rw [List.count_eq_zero]
    intro hmem
    have := List.mem_takeWhile_imp hmem
    simp [isFieldWS] at this
  omega

/-- END_FIELD adds exactly one terminator, to the current column. -/
theorem end_field_zc (stripF header : Bool) (cols : Nat → List Byte) (col : Nat)
    (i : Nat) :
    zc ((end_field stripF header cols col).1 i) =
      zc (cols i) + (if i = col then 1 else 0) := by
  simp only [end_field]
  by_cases hi : i = col
  · subst hi
    rw [if_pos rfl]
    have h1 : ∀ l2 : List Byte, zc (l2 ++ [0]) = zc l2 + 1 := by
      intro l2
      rw [zc_append]
      rfl
    rw [h1]
    have h2 : zc (if stripF = true then stripTrailing (cols i) else cols i) = zc (cols i) := by
      split
      · exact zc_stripTrailing _
      · rfl
    have h3 : ∀ l1 : List Byte,
        zc (if l1 = [] ∨ l1.getLast? = some 0 then l1 ++ [1] else l1) = zc l1 := by
      intro l1
      split
      · rw [zc_append]
        have : zc [1] = 0 := by decide
        omega
      · rfl
    rw [h3, h2, if_pos rfl]
  · simp [hi]

theorem end_field_col (stripF header : Bool) (cols : Nat → List Byte) (col : Nat) :
    (end_field stripF header cols col).2 = if header then col else col + 1 := rfl

/-- Pushing a nonzero byte changes no terminator count. -/
theorem pushByte_zc (cols : Nat → List Byte) (col : Nat) (c : Byte) (hc : c ≠ 0)
    (i : Nat) : zc (pushByte cols col c i) = zc (cols i) := by
  simp only [pushByte]
  by_cases hi : i = col
  · rw [if_pos hi, zc_append]
    have : zc [c] = 0 := by
      rw [zc, List.count_eq_zero]
      intro hmem
      exact hc (List.mem_singleton.mp hmem).symm
    omega
  · rw [if_neg hi]

/-- Appending bytes from a terminator-free list changes no count. -/
theorem zc_append_no_zero (l sl : List Byte) (h : ∀ b ∈ sl, b ≠ 0) :
    zc (l ++ sl) = zc l := by
  rw [zc_append]
  have : zc sl = 0 := by
    rw [zc, List.count_eq_zero]
    intro hmem
    exact h 0 hmem rfl
  omega

/-- The fill loop gives one terminator to every remaining column below
num_cols. -/
theorem fill_cols_zc (stripF : Bool) (nc : Nat) :
    ∀ (fuel : Nat) (cols : Nat → List Byte) (col : Nat), nc ≤ col + fuel →
      ∀ i, zc ((fill_cols stripF nc fuel cols col).1 i) =
        zc (cols i) + (if col ≤ i ∧ i < nc then 1 else 0) := by
  intro fuel
  induction fuel with
  | zero =>
    intro cols col hf i
    simp only [fill_cols]
    rw [if_neg (show ¬(col ≤ i ∧ i < nc) by omega)]
    omega
  | succ n ih =>
    intro cols col hf i
    simp only [fill_cols]
    by_cases hcol : col < nc
    · rw [if_pos hcol]
      have hf2 : nc ≤ col + 1 + n := by omega
      rw [ih ((end_field stripF false (pushByte cols col 1) col).1) (col + 1) hf2 i]
      rw [end_field_zc, pushByte_zc cols col 1 (by decide)]
      by_cases h1 : i = col
      · subst h1
        rw [if_pos rfl, if_neg (show ¬(i + 1 ≤ i ∧ i < nc) by omega),
          if_pos (show i ≤ i ∧ i < nc from ⟨Nat.le_refl _, hcol⟩)]
      · rw [if_neg h1]
        by_cases h2 : col + 1 ≤ i ∧ i < nc
        · rw [if_pos h2, if_pos (show col ≤ i ∧ i < nc from ⟨by omega, h2.2⟩)]
        · rw [if_neg h2, if_neg (show ¬(col ≤ i ∧ i < nc) by omega)]
    · rw [if_neg hcol, if_neg (show ¬(col ≤ i ∧ i < nc) by omega)]
      simp

/-- END_LINE in data mode turns a mid-line state into exact counts: short
rows are either padded (fill) or rejected with NOT_ENOUGH_COLS, and the
row counter absorbs the terminators of the closed row. -/
theorem end_line_inv (fill stripF : Bool) (endv : Int) (nc : Nat) (s : TState)
    (hmid : Mid nc s) :
    (∀ s1, end_line fill stripF endv false nc s = StepRes.more s1 → AtLine nc s1) ∧
    (∀ s1 code, end_line fill stripF endv false nc s = StepRes.done s1 code →
      code = Code.noError → AtLine nc s1) := by
  have key : ∀ i, i < nc → zc (s.cols i) = s.num_rows + (if i < s.col then 1 else 0) := hmid
  simp only [end_line]
  rw [if_neg (by simp)]
  by_cases hf : fill = true
  · rw [if_pos (by simp [hf])]
    have hpad : ∀ i, i < nc →
        zc ((fill_cols stripF nc (nc - s.col) s.cols s.col).1 i) = s.num_rows + 1 := by
      intro i hi
      rw [fill_cols_zc stripF nc (nc - s.col) s.cols s.col (by omega) i, key i hi]
      by_cases hlt : i < s.col
      · rw [if_pos hlt, if_neg (by omega)]
      · rw [if_neg hlt, if_pos ⟨by omega, hi⟩]
    constructor
    · intro s1 h1
      split at h1
      · exact absurd h1 (by simp)
      · cases h1
        intro i hi
        exact hpad i hi
    · intro s1 code h1 _
      split at h1
      · cases h1
        intro i hi
        exact hpad i hi
      · exact absurd h1 (by simp)
  · rw [if_neg (by simp [hf])]
    by_cases hcol : s.col < nc
    · rw [if_pos hcol]
      constructor
      · intro s1 h1
        exact absurd h1 (by simp)
      · intro s1 code h1
        cases h1
        intro hcode
        cases hcode
    · rw [if_neg hcol]
      have hexact : ∀ i, i < nc → zc (s.cols i) = s.num_rows + 1 := by
        intro i hi
        rw [key i hi, if_pos (by omega)]
      constructor
      · intro s1 h1
        split at h1
        · exact absurd h1 (by simp)
        · cases h1
          intro i hi
          exact hexact i hi
      · intro s1 code h1 _
        split at h1
        · cases h1
          intro i hi
          exact hexact i hi
        · exact absurd h1 (by simp)

theorem stepOK_done_ne (nc len : Nat) (s : TState) (code : Code)
    (h : code ≠ Code.noError) : StepOK nc len (StepRes.done s code) :=
  fun hcode => absurd hcode h

/-- Closing a line from a mid-line state and resuming in START_LINE
establishes the loop invariant or exact final counts. -/
theorem match_endline_inv (fill stripF : Bool) (endv : Int) (nc len : Nat)
    (s1 : TState) (hmid : Mid nc s1) :
    StepOK nc len (match end_line fill stripF endv false nc s1 with
      | StepRes.more s2 =>
          StepRes.more {s2 with state := PState.startLine, source_pos := s2.source_pos + 1}
      | StepRes.done s2 code => StepRes.done s2 code) := by
  have h := end_line_inv fill stripF endv nc s1 hmid
  cases he : end_line fill stripF endv false nc s1 with
  | more s2 =>
    have h2 := h.1 s2 he
    exact ⟨h2, fun _ => rfl⟩
  | done s2 code =>
    intro hcode
    exact h.2 s2 code he hcode

/-- END_FIELD in data mode turns the mid-line count at col into the
mid-line count at col + 1. -/
theorem end_field_mid (stripF : Bool) (nc : Nat) (cols : Nat → List Byte)
    (col R : Nat)
    (hc : ∀ i, i < nc → zc (cols i) = R + (if i < col then 1 else 0)) :
    ∀ i, i < nc → zc ((end_field stripF false cols col).1 i) =
      R + (if i < col + 1 then 1 else 0) := by
  intro i hi
  rw [end_field_zc, hc i hi]
  by_cases h1 : i = col
  · subst h1
    rw [if_pos rfl, if_neg (by omega), if_pos (by omega)]
  · rw [if_neg h1]
    by_cases h2 : i < col
    · rw [if_pos h2, if_pos (by omega)]
    · rw [if_neg h2, if_neg (by omega)]

/-- The state prepared by the START_FIELD newline case keeps the mid-line
count shape (with the whitespace field, when one is collected, counted in
col + 1). -/
theorem startFieldNLState_mid (cfg : TokConfig) (nc : Nat) (src : List Byte)
    (s : TState) (hsrc0 : ∀ b ∈ src, b ≠ 0) (hmid : Mid nc s) :
    Mid nc (startFieldNLState cfg false src s) := by
  simp only [startFieldNLState]
  split
  · split
    · exact hmid
    · intro i hi
      exact end_field_mid cfg.strip_whitespace_fields nc s.cols s.col s.num_rows hmid i hi
  · split
    · exact hmid
    · rename_i q hq
      split
      · exact hmid
      · have hcols1 : ∀ j, j < nc →
            zc ((fun j => if j = s.col then s.cols j ++
                (List.take (s.source_pos - (q + 1)) (List.drop (q + 1) src))
              else s.cols j) j) = s.num_rows + (if j < s.col then 1 else 0) := by
          intro j hj
          by_cases hjc : j = s.col
          · simp only [if_pos hjc]
            rw [zc_append_no_zero]
            · exact hmid j hj
            · intro b hb
              exact hsrc0 b (List.mem_of_mem_drop (List.mem_of_mem_take hb))
          · simp only [if_neg hjc]
            exact hmid j hj
        intro i hi
        exact end_field_mid cfg.strip_whitespace_fields nc _ s.col s.num_rows hcols1 i hi

theorem stepFIELD_inv (cfg : TokConfig) (fill : Bool) (endv : Int) (nc len : Nat)
    (c : Byte) (s : TState)
    (hcom : cfg.comment = 0) (hdel : cfg.delimiter ≠ 10)
    (hcq : c = 10 ∨ (c ≠ 0 ∧ c ≠ cfg.quotechar))
    (hcpos : c ≠ 10 → s.source_pos < len)
    (hmid : Mid nc s) (hstate : s.state = PState.field) :
    StepOK nc len (stepFIELD cfg fill endv false nc c s) := by
  simp only [stepFIELD]
  rw [if_neg (by simp [hcom])]
  by_cases h2 : c = cfg.delimiter
  · rw [if_pos h2]
    have hc10 : c ≠ 10 := by rw [h2]; exact hdel
    have key : ¬ (len < s.source_pos + 1) := by
      have := hcpos hc10
      omega
    refine ⟨?_, fun hlen => absurd hlen key⟩
    exact end_field_mid cfg.strip_whitespace_fields nc s.cols s.col s.num_rows hmid
  · rw [if_neg h2]
    by_cases h3 : c = 13
    · rw [if_pos h3]
      have hc10 : c ≠ 10 := by rw [h3]; decide
      have key : ¬ (len < s.source_pos + 1) := by
        have := hcpos hc10
        omega
      refine ⟨?_, fun hlen => absurd hlen key⟩
      exact hmid
    · rw [if_neg h3]
      by_cases h4 : c = 10
      · rw [if_pos h4]
        exact match_endline_inv fill cfg.strip_whitespace_fields endv nc len
          {s with cols := (end_field cfg.strip_whitespace_fields false s.cols s.col).1,
                  col := (end_field cfg.strip_whitespace_fields false s.cols s.col).2}
          (end_field_mid cfg.strip_whitespace_fields nc s.cols s.col s.num_rows hmid)
      · rw [if_neg h4]
        have hc0 : c ≠ 0 := by
          rcases hcq with h | h
          · exact absurd h h4
          · exact h.1
        have key : ¬ (len < s.source_pos + 1) := by
          have := hcpos h4
          omega
        split
        · refine ⟨?_, fun hlen => absurd hlen key⟩
          rw [hstate]
          intro i hi
          rw [pushByte_zc s.cols s.col c hc0 i]
          exact hmid i hi
        · refine ⟨?_, fun hlen => absurd hlen key⟩
          rw [hstate]
          intro i hi
          rw [pushByte_zc s.cols s.col c hc0 i]
          exact hmid i hi

theorem stepSTART_FIELD_inv (cfg : TokConfig) (fill : Bool) (endv : Int)
    (nc len : Nat) (src : List Byte) (c : Byte) (s : TState)
    (hcom : cfg.comment = 0) (hdel : cfg.delimiter ≠ 10)
    (hsrc0 : ∀ b ∈ src, b ≠ 0)
    (hcq : c = 10 ∨ (c ≠ 0 ∧ c ≠ cfg.quotechar))
    (hcpos : c ≠ 10 → s.source_pos < len)
    (hmid : Mid nc s) (hstate : s.state = PState.startField) :
    StepOK nc len (stepSTART_FIELD cfg fill endv false nc src c s) := by
  simp only [stepSTART_FIELD]
  by_cases h1 : (c = 32 ∨ c = 9) ∧ cfg.strip_whitespace_fields = true
  · rw [if_pos h1]
    have hc10 : c ≠ 10 := by
      intro hc
      rcases h1.1 with h | h <;> rw [hc] at h <;> exact absurd h (by decide)
    have key : ¬ (len < s.source_pos + 1) := by
      have := hcpos hc10
      omega
    refine ⟨?_, fun hlen => absurd hlen key⟩
    rw [hstate]
    exact hmid
  · rw [if_neg h1, if_neg (by simp [hcom])]
    by_cases h3 : c = cfg.delimiter
    · rw [if_pos h3]
      have hc10 : c ≠ 10 := by rw [h3]; exact hdel
      have key : ¬ (len < s.source_pos + 1) := by
        have := hcpos hc10
        omega
      refine ⟨?_, fun hlen => absurd hlen key⟩
      exact end_field_mid cfg.strip_whitespace_fields nc s.cols s.col s.num_rows hmid
    · rw [if_neg h3]
      by_cases h4 : c = 13
      · rw [if_pos h4]
        have hc10 : c ≠ 10 := by rw [h4]; decide
        have key : ¬ (len < s.source_pos + 1) := by
          have := hcpos hc10
          omega
        refine ⟨?_, fun hlen => absurd hlen key⟩
        exact hmid
      · rw [if_neg h4]
        by_cases h5 : c = 10
        · rw [if_pos h5]
          simp only [stepSTART_FIELD_NL]
          exact match_endline_inv fill cfg.strip_whitespace_fields endv nc len
            (startFieldNLState cfg false src s)
            (startFieldNLState_mid cfg nc src s hsrc0 hmid)
        · rw [if_neg h5]
          have hcq2 : c ≠ 0 ∧ c ≠ cfg.quotechar := by
            rcases hcq with h | h
            · exact absurd h h5
            · exact h
          rw [if_neg hcq2.2]
          by_cases h7 : nc ≤ s.col
          · rw [if_pos h7]
            exact stepOK_done_ne nc len s Code.tooManyCols (by decide)
          · rw [if_neg h7]
            exact stepFIELD_inv cfg fill endv nc len c {s with state := PState.field}
              hcom hdel hcq hcpos hmid rfl

theorem stepSTART_LINE_inv (cfg : TokConfig) (fill : Bool) (endv : Int)
    (nc len : Nat) (src : List Byte) (c : Byte) (s : TState)
    (hcom : cfg.comment = 0) (hdel : cfg.delimiter ≠ 10)
    (hsrc0 : ∀ b ∈ src, b ≠ 0)
    (hcq : c = 10 ∨ (c ≠ 0 ∧ c ≠ cfg.quotechar))
    (hcpos : c ≠ 10 → s.source_pos < len)
    (hAt : AtLine nc s) (hstate : s.state = PState.startLine) :
    StepOK nc len (stepSTART_LINE cfg fill endv false nc src c s) := by
  simp only [stepSTART_LINE]
  by_cases h1 : c = 10
  · rw [if_pos h1]
    refine ⟨?_, fun _ => hstate⟩
    rw [hstate]
    exact hAt
  · rw [if_neg h1]
    by_cases h2 : c = 13
    · rw [if_pos h2]
      have hc10 : c ≠ 10 := by rw [h2]; decide
      have key : ¬ (len < s.source_pos + 1) := by
        have := hcpos hc10
        omega
      refine ⟨?_, fun hlen => absurd hlen key⟩
      exact hAt
    · rw [if_neg h2]
      by_cases h3 : (c = 32 ∨ c = 9) ∧ cfg.strip_whitespace_lines = true
      · rw [if_pos h3]
        refine ⟨?_, fun _ => hstate⟩
        rw [hstate]
        exact hAt
      · rw [if_neg h3, if_neg (by simp [hcom])]
        have hmid0 : Mid nc
            {s with col := 0, state := PState.startField, whitespace := true} := by
          intro i hi
          show zc (s.cols i) = s.num_rows + (if i < 0 then 1 else 0)
          rw [if_neg (Nat.not_lt_zero i)]
          exact hAt i hi
        exact stepSTART_FIELD_inv cfg fill endv nc len src c
          {s with col := 0, state := PState.startField, whitespace := true}
          hcom hdel hsrc0 hcq hcpos hmid0 rfl

theorem stepCR_inv (nc len : Nat) (c : Byte) (s : TState)
    (hst : stInv nc s s.old_state) (hpos : s.source_pos ≤ len) :
    StepOK nc len (stepCR c s) := by
  simp only [stepCR]
  have hnotCR : s.old_state ≠ PState.carriageReturn := by
    intro h
    rw [h] at hst
    exact hst
  have key : ¬ (len < s.source_pos) := by omega
  have key2 : ¬ (len < s.source_pos - 1) := by omega
  split
  · refine ⟨?_, fun hlen => absurd hlen key⟩
    cases hold : s.old_state <;> rw [hold] at hst <;> exact hst
  · refine ⟨?_, fun hlen => absurd hlen key2⟩
    cases hold : s.old_state <;> rw [hold] at hst <;> exact hst

/-- One step of the tokenize loop preserves the terminator-count invariant,
in data mode with comments disabled, newline-free delimiter, and input free
of NUL and quote bytes. -/
theorem stepTok_inv (cfg : TokConfig) (fill : Bool) (src : List Byte) (endv : Int)
    (nc : Nat) (s : TState)
    (hcom : cfg.comment = 0) (hdel : cfg.delimiter ≠ 10)
    (hsrc : ∀ b ∈ src, b ≠ 0 ∧ b ≠ cfg.quotechar)
    (hp : s.source_pos < src.length + 1)
    (hinv : TInv nc src.length s) :
    StepOK nc src.length (stepTok cfg fill src endv false nc s) := by
  obtain ⟨hst, hpos2⟩ := hinv
  obtain ⟨pos, st, old, pn, col, ws, nr, cols⟩ := s
  simp only [stepTok]
  set c := (if pos = src.length ∨ pn = true then 10 else src.getD pos 0) with hc
  have hp2 : pos < src.length + 1 := hp
  have hcq : c = 10 ∨ (c ≠ 0 ∧ c ≠ cfg.quotechar) := by
    rw [hc]
    split
    · left; rfl
    · right
      rename_i hcond
      push_neg at hcond
      have hps : pos < src.length := by omega
      have hmem : src.getD pos 0 ∈ src := by
        rw [List.getD_eq_getElem src 0 hps]
        exact List.getElem_mem hps
      exact hsrc _ hmem
  have hcpos : c ≠ 10 → pos < src.length := by
    intro h10
    rw [hc] at h10
    by_cases hcond : pos = src.length ∨ pn = true
    · rw [if_pos hcond] at h10
      exact absurd rfl h10
    · push_neg at hcond
      omega
  have hsrc0 : ∀ b ∈ src, b ≠ 0 := fun b hb => (hsrc b hb).1
  cases st with
  | startLine =>
    exact stepSTART_LINE_inv cfg fill endv nc src.length src c
      ⟨pos, PState.startLine, old, false, col, ws, nr, cols⟩
      hcom hdel hsrc0 hcq hcpos hst rfl
  | startField =>
    exact stepSTART_FIELD_inv cfg fill endv nc src.length src c
      ⟨pos, PState.startField, old, false, col, ws, nr, cols⟩
      hcom hdel hsrc0 hcq hcpos hst rfl
  | field =>
    exact stepFIELD_inv cfg fill endv nc src.length c
      ⟨pos, PState.field, old, false, col, ws, nr, cols⟩
      hcom hdel hcq hcpos hst rfl
  | startQuotedField => exact (hst : False).elim
  | quotedField => exact (hst : False).elim
  | quotedFieldNewline => exact (hst : False).elim
  | comment => exact (hst : False).elim
  | carriageReturn =>
    have hpos3 : pos ≤ src.length := by
      by_cases hgt : src.length < pos
      · cases hpos2 hgt
      · omega
    exact stepCR_inv nc src.length c
      ⟨pos, PState.carriageReturn, old, false, col, ws, nr, cols⟩ hst hpos3

/-- Along the tokenize loop, a NO_ERROR return from an invariant state
yields exact terminator counts. -/
theorem runTok_inv (cfg : TokConfig) (fill : Bool) (src : List Byte) (endv : Int)
    (nc : Nat)
    (hcom : cfg.comment = 0) (hdel : cfg.delimiter ≠ 10)
    (hsrc : ∀ b ∈ src, b ≠ 0 ∧ b ≠ cfg.quotechar) :
    ∀ (fuel : Nat) (s : TState), TInv nc src.length s →
      ∀ sf code, runTok cfg fill src endv false nc fuel s = (sf, some code) →
        code = Code.noError → AtLine nc sf := by
  intro fuel
  induction fuel with
  | zero =>
    intro s hinv sf code h
    simp [runTok] at h
  | succ n ih =>
    intro s hinv sf code h hcode
    rw [runTok] at h
    by_cases hp : s.source_pos < src.length + 1
    · rw [if_pos hp] at h
      have hstep := stepTok_inv cfg fill src endv nc s hcom hdel hsrc hp hinv
      cases he : stepTok cfg fill src endv false nc s with
      | more s1 =>
        rw [he] at h hstep
        exact ih s1 hstep sf code h hcode
      | done s1 c1 =>
        rw [he] at h hstep
        injection h with h1 h2
        injection h2 with h2
        subst h1
        subst h2
        exact hstep hcode
    · rw [if_neg hp] at h
      injection h with h1 h2
      injection h2 with h2
      subst h1
      obtain ⟨hst, hpos2⟩ := hinv
      have hSL : s.state = PState.startLine := hpos2 (by omega)
      rw [hSL] at hst
      exact hst

/-- C2 amended: in data mode, with comment handling disabled, a delimiter
other than newline, and an input containing neither 0x00 nor the quote
character, after tokenize returns NO_ERROR every column below num_cols
contains exactly num_rows occurrences of the terminator byte 0x00. -/
theorem tokenize_terminator_count (cfg : TokConfig) (fill : Bool) (src : List Byte)
    (pos0 : Nat) (endv : Int) (ncols : Nat)
    (hcom : cfg.comment = 0) (hdel : cfg.delimiter ≠ 10)
    (hsrc : ∀ b ∈ src, b ≠ 0 ∧ b ≠ cfg.quotechar)
    (hcode : (tokenize cfg fill src pos0 endv false ncols).code = some Code.noError) :
    ∀ i, i < ncols →
      zc ((tokenize cfg fill src pos0 endv false ncols).cols i) =
        (tokenize cfg fill src pos0 endv false ncols).num_rows := by
  by_cases h0 : endv = 0
  · simp only [tokenize, if_pos h0]
    intro i hi
    simp [zc]
  · simp only [tokenize, if_neg h0] at hcode ⊢
    have hinv0 : TInv ncols src.length
        ({ source_pos := pos0, state := PState.startLine,
           old_state := PState.startLine, parse_newline := false, col := 0,
           whitespace := true, num_rows := 0, cols := fun _ => [] } : TState) := by
      refine ⟨?_, fun _ => rfl⟩
      intro i hi
      rfl
    have heq : runTok cfg fill src endv false (if false = true then 1 else ncols)
        (tokFuel src)
        { source_pos := pos0, state := PState.startLine,
          old_state := PState.startLine, parse_newline := false, col := 0,
          whitespace := true, num_rows := 0, cols := fun _ => [] } =
        ((runTok cfg fill src endv false (if false = true then 1 else ncols)
          (tokFuel src)
          { source_pos := pos0, state := PState.startLine,
            old_state := PState.startLine, parse_newline := false, col := 0,
            whitespace := true, num_rows := 0, cols := fun _ => [] }).1,
          some Code.noError) := by
      rw [← hcode]
    exact runTok_inv cfg fill src endv ncols hcom hdel hsrc (tokFuel src) _ hinv0
      _ Code.noError heq rfl

/-- Witness for the amended C2 on the input "1,2\n" with two columns,
comments disabled, quote character '"': after NO_ERROR, column 0 holds
exactly num_rows terminators. -/
theorem tokenize_terminator_count_wit :
    ((⟨44, 0, 34, true, true⟩ : TokConfig).comment = 0 ∧
      (⟨44, 0, 34, true, true⟩ : TokConfig).delimiter ≠ 10 ∧
      (∀ b ∈ ([49, 44, 50, 10] : List Byte), b ≠ 0 ∧ b ≠ 34) ∧
      (tokenize ⟨44, 0, 34, true, true⟩ false [49, 44, 50, 10] 0 (-1) false 2).code =
        some Code.noError) ∧
    zc ((tokenize ⟨44, 0, 34, true, true⟩ false [49, 44, 50, 10] 0 (-1) false 2).cols 0) =
      (tokenize ⟨44, 0, 34, true, true⟩ false [49, 44, 50, 10] 0 (-1) false 2).num_rows :=
  ⟨⟨by decide, by decide, by decide, by decide⟩,
    tokenize_terminator_count ⟨44, 0, 34, true, true⟩ false [49, 44, 50, 10] 0 (-1) 2
      (by decide) (by decide) (by decide) (by decide) 0 (by decide)⟩

/-- C2 counterexample: on the input "a,\"b" (an unterminated quoted field in
the second column) tokenize returns NO_ERROR with num_rows 0, yet column 0
contains one 0x00 terminator, so it is not the case that for every input
and configuration each column holds exactly num_rows terminators. -/
theorem tokenize_terminator_count_cex :
    (tokenize scenarioConfig false [97, 44, 34, 98] 0 (-1) false 2).code =
        some Code.noError ∧
    (tokenize scenarioConfig false [97, 44, 34, 98] 0 (-1) false 2).num_rows = 0 ∧
    zc ((tokenize scenarioConfig false [97, 44, 34, 98] 0 (-1) false 2).cols 0) = 1 := by
  refine ⟨by decide, by decide, by decide⟩
